import Mathlib

/-!
# Verification of the Alexandria core services

Shallow embedding of the core services of the Alexandria repository
(`CacheManager`, `GitHubApiClient`, `RandomEngine`) in Lean 4, together
with theorems settling the specification claims about them.

Conventions of the embedding:
* JavaScript `T | null` values are embedded as `Option`; a `null` result is
  `none`.
* `Date.now()` / epoch timestamps are explicit `Nat` parameters (`now`).
* Network and storage effects are threaded explicitly: stateful methods
  become functions from state to (result, state); the outcomes of `fetch`
  calls are supplied by an oracle parameter.
* The serialized size of a payload is an abstract parameter
  `size : A -> Nat` (byte count of the JSON serialization).

Two copies of the API client exist in the repository; the operative one
(quoted as the implementation in `docs/security.md`, and the only one with
the token support described in `docs/configuration.md`) is the one with the
pre-flight cache fallback, fixed-delay retry bounded to `maxRetries = 2`,
and no automatic retry of rate-limit errors.  That version is embedded
here.
-/

/-! ## RandomEngine: relative markdown-link resolution

Embedding of `RandomEngine.resolveRelativePath` (src/services/RandomEngine.ts).
-/

/-- JavaScript `s.split('/')` on the character list of `s` (kept
structural so that concrete paths evaluate inside the kernel):
`"" ↦ [""]`, `"a//b" ↦ ["a", "", "b"]`. -/
def splitOnSlashChars : List Char → List (List Char)
  | [] => [[]]
  | c :: cs =>
    if c = '/' then [] :: splitOnSlashChars cs
    else
      match splitOnSlashChars cs with
      | [] => [[c]]
      | h :: t => (c :: h) :: t

/-- JavaScript `s.split('/')`. -/
def splitSlash (s : String) : List String :=
  (splitOnSlashChars s.data).map String.mk

/-- JavaScript `s.startsWith(p)` (character-wise prefix test). -/
def jsStartsWith (s p : String) : Bool :=
  p.data.isPrefixOf s.data

/-- JavaScript `s.substring(n)` for a character index `n`. -/
def jsSubstringFrom (s : String) (n : Nat) : String :=
  String.mk (s.data.drop n)

/-- Number of leading `".."` segments of a segment list
(the `upCount` loop in `resolveRelativePath`, which stops at the first
segment that is not `".."`). -/
def leadingUpCount : List String → Nat
  | [] => 0
  | p :: ps => if p = ".." then leadingUpCount ps + 1 else 0

/-- `currentPath.substring(0, currentPath.lastIndexOf('/'))` when the path
contains a slash, else the empty string.  Expressed via `split('/')`:
everything before the last slash is the join of all but the last
slash-separated piece. -/
def currentDirOf (currentPath : String) : String :=
  if currentPath.data.contains '/' then
    String.intercalate "/" (splitSlash currentPath).dropLast
  else ""

/-- `RandomEngine.resolveRelativePath(relativePath, currentPath)`.

The `"../"` branch clamps via `parts.slice(0, -upCount)`: a JavaScript
negative end index is `parts.length - upCount`, clamped to `0` from below,
which is exactly truncated subtraction on `Nat`. -/
def resolveRelativePath (relativePath currentPath : String) : String :=
  let currentDir := currentDirOf currentPath
  if jsStartsWith relativePath "./" then
    if currentDir ≠ "" then currentDir ++ "/" ++ jsSubstringFrom relativePath 2
    else jsSubstringFrom relativePath 2
  else if jsStartsWith relativePath "../" then
    let parts := (splitSlash currentDir).filter (fun p => p ≠ "")
    let relativeParts := (splitSlash relativePath).filter (fun p => p ≠ "")
    let upCount := leadingUpCount relativeParts
    let remainingParts := relativeParts.drop upCount
    let baseParts := parts.take (parts.length - upCount)
    String.intercalate "/" (baseParts ++ remainingParts)
  else relativePath

/-! ## CacheManager: reading-history sub-store

Embedding of `CacheManager.addToHistory` (src/services/CacheManager.ts).
-/

/-- `ReadingHistoryItem` (src/types/index.ts). -/
structure ReadingHistoryItem where
  owner : String
  repo : String
  path : String
  ref : String
  title : String
  timestamp : Nat
deriving DecidableEq, Repr

/-- The de-duplication identity used by `addToHistory`:
`h.owner === item.owner && h.repo === item.repo && h.path === item.path`. -/
def historyIdentity (h : ReadingHistoryItem) : String × String × String :=
  (h.owner, h.repo, h.path)

/-- `CacheManager.addToHistory`: drop entries with the same
(owner, repo, path) identity, prepend the new item (`unshift`), keep the
first 50 (`slice(0, 50)`). -/
def addToHistory (item : ReadingHistoryItem) (history : List ReadingHistoryItem) :
    List ReadingHistoryItem :=
  (item :: history.filter (fun h => ¬ (historyIdentity h = historyIdentity item))).take 50

/-- The reading-history state reached from the empty initial history by a
sequence of insertions (the history is created empty and is only ever
modified through `addToHistory`). -/
def historyFrom (ops : List ReadingHistoryItem) : List ReadingHistoryItem :=
  ops.foldl (fun h i => addToHistory i h) []

/-- The key invariant: no two entries share an identity. -/
def HistoryNodup (h : List ReadingHistoryItem) : Prop :=
  h.Pairwise (fun a b => historyIdentity a ≠ historyIdentity b)

/-! ## CacheManager: two-tier TTL cache

Embedding of `CacheManager.get` / `set` / `invalidateKey` / `isExpired` /
`updateCacheHeaders` (src/services/CacheManager.ts).  The two data tiers
(`localStorage` for serialized sizes under 100KB, IndexedDB otherwise) and
the fast metadata index are each modelled as a map from keys to optional
entries.  `sizeOf` abstracts the byte count of the JSON serialization; the
JavaScript threshold `sizeKB < 100` with `sizeKB = bytes / 1024` is exactly
`bytes < 102400`.
-/

/-- `CacheItem<T>`: the record persisted in either data tier. -/
structure CacheEntry (A : Type) where
  data : A
  timestamp : Nat
  ttl : Nat
deriving DecidableEq, Repr

/-- `CacheMetadata`: the record persisted in the fast metadata index
(`size` here is the serialized byte count; the source stores it divided
by 1024). -/
structure CacheMetadata where
  key : String
  timestamp : Nat
  ttl : Nat
  size : Nat
  etag : Option String
  lastModified : Option String
deriving DecidableEq, Repr

/-- The persistent state of one `CacheManager`:
fast data tier (localStorage), bulk data tier (IndexedDB), metadata index. -/
structure CacheState (A : Type) where
  localStore : String → Option (CacheEntry A)
  idb : String → Option (CacheEntry A)
  meta : String → Option CacheMetadata

/-- Pointwise map update. -/
def setKey (k : String) (v : Option B) (f : String → Option B) : String → Option B :=
  fun q => if q = k then v else f q

def emptyCache (A : Type) : CacheState A :=
  ⟨fun _ => none, fun _ => none, fun _ => none⟩

/-- `this.defaultTTL = 6 * 60 * 60 * 1000` (milliseconds). -/
def defaultTTL : Nat := 21600000

/-- `ttl || this.defaultTTL` — `0` (and absence) are falsy. -/
def actualTTLOf (ttl : Nat) : Nat :=
  if ttl = 0 then defaultTTL else ttl

/-- `CacheManager.isExpired`: `Date.now() > item.timestamp + item.ttl`. -/
def isExpired (timestamp ttl now : Nat) : Bool :=
  decide (timestamp + ttl < now)

/-- `CacheManager.invalidateKey`: removes the key from both data tiers and
from the metadata index. -/
def invalidateKey (k : String) (s : CacheState A) : CacheState A :=
  { localStore := setKey k none s.localStore
    idb := setKey k none s.idb
    meta := setKey k none s.meta }

/-- The IndexedDB fallback read inside `CacheManager.get`:
`result && !isExpired(result) ? result.data : null`. -/
def cacheGetFromIdb (now : Nat) (k : String) (s : CacheState A) :
    Option A × CacheState A :=
  match s.idb k with
  | some e => if isExpired e.timestamp e.ttl now then (none, s) else (some e.data, s)
  | none => (none, s)

/-- `CacheManager.get`: a missing or expired metadata record means the
entry is treated as absent and evicted lazily (`invalidateKey`);
otherwise the fast tier is consulted first and, when its entry is missing
or expired, the bulk tier. -/
def cacheGet (now : Nat) (k : String) (s : CacheState A) :
    Option A × CacheState A :=
  match s.meta k with
  | none => (none, invalidateKey k s)
  | some m =>
    if isExpired m.timestamp m.ttl now then (none, invalidateKey k s)
    else
      match s.localStore k with
      | some e =>
        if isExpired e.timestamp e.ttl now then cacheGetFromIdb now k s
        else (some e.data, s)
      | none => cacheGetFromIdb now k s

/-- `CacheManager.set`: tier chosen by serialized size
(`< 100KB` → fast tier, else bulk tier); the metadata index is written in
both cases, with fresh timestamp/ttl and no conditional metadata. -/
def cacheSet (sizeOf : A → Nat) (now : Nat) (k : String) (v : A) (ttl : Nat)
    (s : CacheState A) : CacheState A :=
  let actualTTL := actualTTLOf ttl
  let entry : CacheEntry A := ⟨v, now, actualTTL⟩
  let md : CacheMetadata := ⟨k, now, actualTTL, sizeOf v, none, none⟩
  if sizeOf v < 102400 then
    { s with localStore := setKey k (some entry) s.localStore
             meta := setKey k (some md) s.meta }
  else
    { s with idb := setKey k (some entry) s.idb
             meta := setKey k (some md) s.meta }

/-- `CacheManager.getCacheHeaders`: conditional-request headers
(If-None-Match, If-Modified-Since) from stored etag / lastModified. -/
def getCacheHeaders (k : String) (s : CacheState A) :
    Option String × Option String :=
  match s.meta k with
  | some m => (m.etag, m.lastModified)
  | none => (none, none)

/-- `CacheManager.updateCacheHeaders`: if a metadata record exists, update
whichever of etag / lastModified was provided. -/
def updateCacheHeaders (k : String) (etag lastModified : Option String)
    (s : CacheState A) : CacheState A :=
  match s.meta k with
  | none => s
  | some m =>
    let m1 := match etag with
      | some e => { m with etag := some e }
      | none => m
    let m2 := match lastModified with
      | some lm => { m1 with lastModified := some lm }
      | none => m1
    { s with meta := setKey k (some m2) s.meta }

/-! ## GitHubApiClient

Embedding of the operative `GitHubApiClient`
(pre-flight cache fallback in `makeRequest`; `maxRetries = 2` with a fixed
`retryDelay = 2000`; only retryable `NetworkError` is retried).  Network
effects are supplied by an oracle `responses : Nat → FetchOutcome A`
giving the outcome of the fetch issued on each attempt; `now` is the
timestamp used by the cache operations during the request.
-/

/-- `RateLimit` (src/types/index.ts): the mutable quota snapshot. -/
structure RateLimit where
  limit : Nat
  remaining : Nat
  reset : Nat
  used : Nat
deriving DecidableEq, Repr

/-- The constructor initialization of `rateLimitState`:
`{limit: 60, remaining: 60, reset: Date.now()/1000 + 3600, used: 0}`. -/
def initialRateLimit (startEpoch : Nat) : RateLimit :=
  ⟨60, 60, startEpoch + 3600, 0⟩

/-- The four `x-ratelimit-*` response headers, each possibly absent
(values already parsed to numbers). -/
structure QuotaHeaders where
  limit : Option Nat
  remaining : Option Nat
  reset : Option Nat
  used : Option Nat
deriving DecidableEq, Repr

/-- The quota snapshot carried by a header set when all four quota headers
are present. -/
def quotaOf (h : QuotaHeaders) : Option RateLimit :=
  match h.limit, h.remaining, h.reset, h.used with
  | some l, some r, some re, some u => some ⟨l, r, re, u⟩
  | _, _, _, _ => none

/-- `GitHubApiClient.updateRateLimitFromHeaders`: overwrite the snapshot
wholesale iff all four quota headers are present, otherwise leave it. -/
def updateRateLimitFromHeaders (s : RateLimit) (h : QuotaHeaders) : RateLimit :=
  match quotaOf h with
  | some q => q
  | none => s

/-- A completed HTTP response as consumed by `executeRequest`: status code,
parsed `retry-after` header (if present), quota headers, validator headers,
and the JSON body. -/
structure HttpResponse (A : Type) where
  status : Nat
  retryAfter : Option Nat
  quota : QuotaHeaders
  etag : Option String
  lastModified : Option String
  body : A
deriving DecidableEq, Repr

/-- Outcome of one `fetch` call: a completed response, or a rejection of
the fetch promise itself (transport failure). -/
inductive FetchOutcome (A : Type) where
  | resp (r : HttpResponse A)
  | netFail
deriving DecidableEq, Repr

/-- The error taxonomy of the client: `RateLimitError(resetTime, status)`,
`SecondaryRateLimitError(retryAfter, status)`, `NetworkError(status?)`. -/
inductive ApiError where
  | rateLimitErr (resetTime : Nat) (statusCode : Nat)
  | secondaryRateLimitErr (retryAfter : Nat) (statusCode : Nat)
  | networkErr (statusCode : Option Nat)
deriving DecidableEq, Repr

/-- Result of a request: the typed payload, or a typed error (a thrown
exception in the source). -/
inductive ReqResult (A : Type) where
  | ok (v : A)
  | err (e : ApiError)
deriving DecidableEq, Repr

/-- The state owned by one client instance: the quota snapshot and the
(optional) cache manager wired in at construction. -/
structure ClientState (A : Type) where
  rateLimitState : RateLimit
  cache : Option (CacheState A)

/-- `if (this.cache) { const cached = await this.cache.get(key); ... }` —
a cache read through the optional cache manager. -/
def clientCacheGet (now : Nat) (k : String) (st : ClientState A) :
    Option A × ClientState A :=
  match st.cache with
  | none => (none, st)
  | some cs =>
    let r := cacheGet now k cs
    (r.1, { st with cache := some r.2 })

/-- `if (this.cache) await this.cache.set(key, data, ttl)`. -/
def clientCacheSet (sizeOf : A → Nat) (now : Nat) (k : String) (v : A)
    (ttl : Nat) (st : ClientState A) : ClientState A :=
  match st.cache with
  | none => st
  | some cs => { st with cache := some (cacheSet sizeOf now k v ttl cs) }

/-- `this.cache.updateCacheHeaders(key, etag, lastModified)`. -/
def clientUpdateCacheHeaders (k : String) (etag lastModified : Option String)
    (st : ClientState A) : ClientState A :=
  match st.cache with
  | none => st
  | some cs => { st with cache := some (updateCacheHeaders k etag lastModified cs) }

/-- Result of one `executeRequest` call: the value or thrown error, the
client state afterwards, whether a network call was issued, and the
response that was received and processed (if any). -/
structure ExecResult (A : Type) where
  result : ReqResult A
  state : ClientState A
  fetched : Bool
  processed : Option (HttpResponse A)

/-- `GitHubApiClient.executeRequest`, linearized: initial cache check;
fetch; quota refresh from headers; 304 served from cache (a 304 cache miss
falls through to the non-ok branch); 403/429 first try the cache, then
throw `SecondaryRateLimitError(parsed retry-after)` when a retry-after
value is present, else `RateLimitError(reset)` — both of which the
enclosing catch block answers with one more cache-fallback attempt before
rethrowing; any other non-2xx status throws `NetworkError(status)`
(rethrown unchanged by the catch block); a fetch rejection is wrapped into
`NetworkError` without a status code; on success the payload is cached
with the fixed 6-hour TTL and conditional metadata is recorded when the
response carried validators. -/
def executeRequest (sizeOf : A → Nat) (now : Nat) (key : String)
    (outcome : FetchOutcome A) (st : ClientState A) : ExecResult A :=
  let c0 := clientCacheGet now key st
  match c0.1 with
  | some v => ⟨.ok v, c0.2, false, none⟩
  | none =>
    match outcome with
    | .netFail => ⟨.err (.networkErr none), c0.2, true, none⟩
    | .resp r =>
      let st1 := { c0.2 with
        rateLimitState := updateRateLimitFromHeaders c0.2.rateLimitState r.quota }
      if r.status = 304 then
        let c1 := clientCacheGet now key st1
        match c1.1 with
        | some v => ⟨.ok v, c1.2, true, some r⟩
        | none => ⟨.err (.networkErr (some 304)), c1.2, true, some r⟩
      else if r.status = 403 ∨ r.status = 429 then
        let c1 := clientCacheGet now key st1
        match c1.1 with
        | some v => ⟨.ok v, c1.2, true, some r⟩
        | none =>
          match r.retryAfter with
          | some ra =>
            let c2 := clientCacheGet now key c1.2
            match c2.1 with
            | some v => ⟨.ok v, c2.2, true, some r⟩
            | none => ⟨.err (.secondaryRateLimitErr ra r.status), c2.2, true, some r⟩
          | none =>
            let resetTime := c1.2.rateLimitState.reset
            let c2 := clientCacheGet now key c1.2
            match c2.1 with
            | some v => ⟨.ok v, c2.2, true, some r⟩
            | none => ⟨.err (.rateLimitErr resetTime r.status), c2.2, true, some r⟩
      else if ¬ (200 ≤ r.status ∧ r.status ≤ 299) then
        ⟨.err (.networkErr (some r.status)), st1, true, some r⟩
      else
        let st2 := clientCacheSet sizeOf now key r.body 21600000 st1
        let st3 :=
          if r.etag.isSome || r.lastModified.isSome then
            clientUpdateCacheHeaders key r.etag r.lastModified st2
          else st2
        ⟨.ok r.body, st3, true, some r⟩

/-- `this.maxRetries = 2` — maximum number of additional attempts. -/
def maxRetries : Nat := 2

/-- `this.retryDelay = 2000` — fixed inter-attempt delay (ms). -/
def retryDelay : Nat := 2000

/-- `GitHubApiClient.isRetryableError`: no status code (transport failure),
server errors (5xx), or request timeout (408). -/
def isRetryableError (statusCode : Option Nat) : Bool :=
  match statusCode with
  | none => true
  | some sc => decide (500 ≤ sc) || decide (sc = 408)

/-- Result of `executeRequestWithRetry` / `makeRequest`: final outcome and
state, number of network calls issued, the inter-attempt delays slept, and
all responses received and processed (in order). -/
structure RetryResult (A : Type) where
  result : ReqResult A
  state : ClientState A
  fetches : Nat
  delays : List Nat
  processed : List (HttpResponse A)

/-- `GitHubApiClient.executeRequestWithRetry`: only a retryable
`NetworkError` is retried, at most `maxRetries` additional attempts, a
fixed `retryDelay` sleep before each retry; every other error — both
rate-limit kinds included — is rethrown immediately. -/
def executeRequestWithRetry (sizeOf : A → Nat) (now : Nat) (key : String)
    (responses : Nat → FetchOutcome A) (retryCount : Nat) (st : ClientState A) :
    RetryResult A :=
  let e := executeRequest sizeOf now key (responses retryCount) st
  let fetchN : Nat := if e.fetched then 1 else 0
  match e.result with
  | .err (.networkErr sc) =>
    if h : retryCount < maxRetries ∧ isRetryableError sc = true then
      let rest := executeRequestWithRetry sizeOf now key responses (retryCount + 1) e.state
      ⟨rest.result, rest.state, fetchN + rest.fetches, retryDelay :: rest.delays,
        e.processed.toList ++ rest.processed⟩
    else ⟨e.result, e.state, fetchN, [], e.processed.toList⟩
  | _ => ⟨e.result, e.state, fetchN, [], e.processed.toList⟩
termination_by maxRetries - retryCount
decreasing_by
  have := h.1
  simp [maxRetries] at this ⊢
  omega

/-- `GitHubApiClient.makeRequest`: pre-flight admission check — when the
tracked `remaining` is zero, try the cache and on a miss throw
`RateLimitError(reset)` without issuing any network call; otherwise run
the request with the retry wrapper. -/
def makeRequest (sizeOf : A → Nat) (now : Nat) (key : String)
    (responses : Nat → FetchOutcome A) (st : ClientState A) : RetryResult A :=
  if st.rateLimitState.remaining = 0 then
    let c := clientCacheGet now key st
    match c.1 with
    | some v => ⟨.ok v, c.2, 0, [], []⟩
    | none => ⟨.err (.rateLimitErr st.rateLimitState.reset 403), c.2, 0, [], []⟩
  else
    executeRequestWithRetry sizeOf now key responses 0 st

/-! ### Quota-state discipline -/

/-- The most recently parsed complete quota-header set among a list of
processed responses. -/
def lastQuota (rs : List (HttpResponse A)) : Option RateLimit :=
  (rs.filterMap (fun r => quotaOf r.quota)).getLast?

/-- A concrete 403 response carrying the full quota-header set, for the C4
witness. -/
def respC4 : HttpResponse Nat :=
  ⟨403, none, ⟨some 60, some 0, some 777, some 60⟩, none, none, 0⟩

/-- A concrete client state (5 calls remaining, no cache wired), for the C4
witness. -/
def stC4 : ClientState Nat :=
  ⟨⟨60, 5, 50, 50⟩, none⟩

/-! ## RandomEngine: repository-selection cascade

Embedding of `RandomEngine.getRandomRepository` /
`searchRandomRepository` (src/services/RandomEngine.ts).  The outcome of
`apiClient.searchRepositories` is an oracle `searchOutcome` (`none` = the
call threw); the random index into the result page is an arbitrary
in-range index `pick % length`; each `getRandomUserRepository` call is an
oracle `fallback : Nat → Option R` indexed by the attempt number (`none`
= that attempt threw).
-/

/-- `RandomEngine.searchRandomRepository`: a failed search or an empty
result set is a failure (throw); otherwise one result of the page is
picked at random. -/
def searchRandomRepository (searchOutcome : Option (List R)) (pick : Nat) :
    Option R :=
  match searchOutcome with
  | none => none
  | some results =>
    if results.length = 0 then none
    else results[pick % results.length]?

/-- `const maxAttempts = 5`. -/
def maxAttempts : Nat := 5

/-- Outcome of the selection cascade: the repository (or `none` when the
final `throw new Error(...)` is reached), the number of fallback attempts
made, and the `sleep` delays taken between attempts. -/
structure DiscoveryOutcome (R : Type) where
  result : Option R
  fallbackCalls : Nat
  delays : List Nat

/-- The `while (attempts < maxAttempts)` loop of `getRandomRepository`:
each iteration makes one `getRandomUserRepository` attempt, returns on
success, and on failure sleeps 1000 ms when more attempts remain. -/
def fallbackLoop (fallback : Nat → Option R) (attempts : Nat) :
    DiscoveryOutcome R :=
  if h : attempts < maxAttempts then
    match fallback (attempts + 1) with
    | some repo => ⟨some repo, 1, []⟩
    | none =>
      let rest := fallbackLoop fallback (attempts + 1)
      ⟨rest.result, rest.fallbackCalls + 1,
        (if attempts + 1 < maxAttempts then [1000] else []) ++ rest.delays⟩
  else ⟨none, 0, []⟩
termination_by maxAttempts - attempts
decreasing_by
  simp [maxAttempts] at h ⊢
  omega

/-- `RandomEngine.getRandomRepository`: strategy 1 (filtered search) first;
any failure falls through to the user-anchored fallback loop. -/
def getRandomRepository (searchOutcome : Option (List R)) (pick : Nat)
    (fallback : Nat → Option R) : DiscoveryOutcome R :=
  match searchRandomRepository searchOutcome pick with
  | some repo => ⟨some repo, 0, []⟩
  | none => fallbackLoop fallback 0

/-! ## getCurrentRateLimit: defensive copy

Embedding of `GitHubApiClient.getCurrentRateLimit`
(`return { ...this.rateLimitState }`).  To state the aliasing property, the
quota objects live in an explicit object heap: the client instance owns the
object at `stRef`; the spread syntax allocates a fresh object whose four
numeric fields are copied from it.
-/

/-- A heap of `RateLimit` objects: references below `nextRef` are
allocated. -/
structure RLHeap where
  nextRef : Nat
  store : Nat → RateLimit

/-- Read the object behind a reference. -/
def readRef (h : RLHeap) (r : Nat) : RateLimit := h.store r

/-- Mutate the object behind a reference in place. -/
def writeRef (h : RLHeap) (r : Nat) (v : RateLimit) : RLHeap :=
  { h with store := fun i => if i = r then v else h.store i }

/-- `getCurrentRateLimit(): return { ...this.rateLimitState }` — allocate a
fresh object carrying a field-wise copy of the instance-owned snapshot at
`stRef` and return a reference to the copy. -/
def getCurrentRateLimit (stRef : Nat) (h : RLHeap) : Nat × RLHeap :=
  (h.nextRef,
    { nextRef := h.nextRef + 1,
      store := fun i => if i = h.nextRef then h.store stRef else h.store i })

/-- A concrete one-object heap for the C10 witness: the client state lives
at reference 0 and `nextRef = 1`. -/
def heapC10 : RLHeap := ⟨1, fun _ => ⟨60, 60, 0, 0⟩⟩

/-! ## RandomEngine: relative markdown-link resolution

Embedding of `RandomEngine.resolveRelativePath` (src/services/RandomEngine.ts).
-/

/-- **C5 counterexample.** A link that traverses above the repository root
is not rejected: from `a/b/c.md`, the escaping link `../../../d.md`
(three parent steps from directory `a/b`, one more than reaches the root)
is resolved to the path `d.md` — the same result as the legitimate link
`../../d.md` — rather than being rejected. -/
theorem resolveRelativePath_escape_not_rejected :
    resolveRelativePath "../../../d.md" "a/b/c.md" = "d.md" ∧
    resolveRelativePath "../../d.md" "a/b/c.md" = "d.md" := by
  constructor <;> decide

/-- **C5 (amended).** Relative markdown-link resolution against the current
document path `a/b/c.md` maps `../d.md` to `a/d.md` and `./e.md` to
`a/b/e.md`; a link that would traverse above the repository root is *not*
rejected — the excess parent segments are clamped at the root
(`slice(0, -upCount)` truncates at zero), so `../../../d.md` resolves to
the root-level path `d.md`. -/
theorem resolveRelativePath_spec :
    resolveRelativePath "../d.md" "a/b/c.md" = "a/d.md" ∧
    resolveRelativePath "./e.md" "a/b/c.md" = "a/b/e.md" ∧
    resolveRelativePath "../../../d.md" "a/b/c.md" = "d.md" := by
  refine ⟨by decide, by decide, by decide⟩

/-! ## CacheManager: reading-history sub-store

Embedding of `CacheManager.addToHistory` (src/services/CacheManager.ts).
-/

theorem addToHistory_head (item : ReadingHistoryItem) (history : List ReadingHistoryItem) :
    (addToHistory item history).head? = some item := by
  simp [addToHistory]

theorem addToHistory_length_le (item : ReadingHistoryItem)
    (history : List ReadingHistoryItem) : (addToHistory item history).length ≤ 50 := by
  simp [addToHistory]

theorem addToHistory_nodup {history : List ReadingHistoryItem}
    (hn : HistoryNodup history) (item : ReadingHistoryItem) :
    HistoryNodup (addToHistory item history) := by
  unfold addToHistory
  refine List.Pairwise.sublist (List.take_sublist _ _) ?_
  refine List.pairwise_cons.mpr ⟨?_, ?_⟩
  · intro b hb
    have := (List.mem_filter.mp hb).2
    simp only [decide_not, decide_eq_true_eq, Bool.not_eq_true', decide_eq_false_iff_not] at this
    exact fun hc => this hc.symm
  · exact List.Pairwise.filter _ hn

theorem historyFrom_nodup (ops : List ReadingHistoryItem) : HistoryNodup (historyFrom ops) := by
  suffices h : ∀ acc, HistoryNodup acc →
      HistoryNodup (ops.foldl (fun h i => addToHistory i h) acc) by
    exact h [] List.Pairwise.nil
  induction ops with
  | nil => intro acc hacc; exact hacc
  | cons x xs ih =>
    intro acc hacc
    exact ih _ (addToHistory_nodup hacc x)

theorem addToHistory_identity_unique (item : ReadingHistoryItem)
    (history : List ReadingHistoryItem) :
    ∀ x ∈ addToHistory item history,
      historyIdentity x = historyIdentity item → x = item := by
  intro x hx hid
  unfold addToHistory at hx
  have hx' := List.mem_of_mem_take hx
  rcases List.mem_cons.mp hx' with h | h
  · exact h
  · have := (List.mem_filter.mp h).2
    simp only [decide_not, decide_eq_true_eq, Bool.not_eq_true', decide_eq_false_iff_not] at this
    exact absurd hid this

/-- **C8.** Reading-history insertion: for every reachable reading-history
state (reached from the empty initial history by any sequence of
insertions) and every inserted entry, after insertion (i) the new entry is
first, (ii) the list has at most 50 entries, (iii) no two entries share an
(owner, repo, path) identity, and (iv) the only entry carrying the inserted
identity is the inserted entry itself (a matching old entry was removed,
not duplicated). -/
theorem addToHistory_spec (ops : List ReadingHistoryItem) (item : ReadingHistoryItem) :
    (addToHistory item (historyFrom ops)).head? = some item ∧
    (addToHistory item (historyFrom ops)).length ≤ 50 ∧
    HistoryNodup (addToHistory item (historyFrom ops)) ∧
    (∀ x ∈ addToHistory item (historyFrom ops),
        historyIdentity x = historyIdentity item → x = item) :=
  ⟨addToHistory_head item _, addToHistory_length_le item _,
    addToHistory_nodup (historyFrom_nodup ops) item,
    addToHistory_identity_unique item _⟩

/-- **C8 witness.** -/
theorem addToHistory_spec_witness :
    (addToHistory ⟨"o", "r", "p", "main", "t", 0⟩ (historyFrom [])).head? =
      some ⟨"o", "r", "p", "main", "t", 0⟩ ∧
    (addToHistory ⟨"o", "r", "p", "main", "t", 0⟩ (historyFrom [])).length ≤ 50 ∧
    HistoryNodup (addToHistory ⟨"o", "r", "p", "main", "t", 0⟩ (historyFrom [])) ∧
    (∀ x ∈ addToHistory ⟨"o", "r", "p", "main", "t", 0⟩ (historyFrom []),
        historyIdentity x = historyIdentity ⟨"o", "r", "p", "main", "t", 0⟩ →
        x = ⟨"o", "r", "p", "main", "t", 0⟩) :=
  addToHistory_spec [] ⟨"o", "r", "p", "main", "t", 0⟩

/-! ## CacheManager: two-tier TTL cache

Embedding of `CacheManager.get` / `set` / `invalidateKey` / `isExpired` /
`updateCacheHeaders` (src/services/CacheManager.ts).  The two data tiers
(`localStorage` for serialized sizes under 100KB, IndexedDB otherwise) and
the fast metadata index are each modelled as a map from keys to optional
entries.  `sizeOf` abstracts the byte count of the JSON serialization; the
JavaScript threshold `sizeKB < 100` with `sizeKB = bytes / 1024` is exactly
`bytes < 102400`.
-/

/-- **C6 counterexample.** `set` of a bulk-tier value does not clear a
previous unexpired fast-tier entry under the same key, and `get` consults
the fast tier first: storing the small value `5` at time 0 with a long
ttl, then storing the large value `200000` (serialized size ≥ 100KB) at
time 100, makes `get` at time 200 — well within the ttl of the second entry —
return the stale value `5`, not the value just stored. -/
theorem cacheSet_get_stale_counterexample :
    (cacheGet 200 "k"
        (cacheSet (fun n => n) 100 "k" 200000 1000000
          (cacheSet (fun n => n) 0 "k" 5 1000000 (emptyCache Nat)))).1 ≠
      some 200000 ∧
    (cacheGet 200 "k"
        (cacheSet (fun n => n) 100 "k" 200000 1000000
          (cacheSet (fun n => n) 0 "k" 5 1000000 (emptyCache Nat)))).1 =
      some 5 := by
  constructor <;> decide

/-- **C6 (amended).** `set(key, value, ttl)` followed by `get(key)` at any
time not later than `storedAt + ttl` returns exactly the stored value,
provided the fast tier is not shadowed: either the serialized value is
below the 100KB tier threshold (so `set` overwrites the fast-tier slot),
or every fast-tier entry previously stored under the key has expired by
the time of the `get` (in particular, provided the key was not previously
cached).  (`ttl` here is the effective ttl: a falsy `ttl` argument selects
the 6-hour default.) -/
theorem cacheSet_get_within_ttl (sizeOf : A → Nat) (s : CacheState A)
    (k : String) (v : A) (ttl t0 t : Nat)
    (hwithin : t ≤ t0 + actualTTLOf ttl)
    (hshadow : 102400 ≤ sizeOf v →
      ∀ e, s.localStore k = some e → isExpired e.timestamp e.ttl t = true) :
    (cacheGet t k (cacheSet sizeOf t0 k v ttl s)).1 = some v := by
  have hfresh : isExpired t0 (actualTTLOf ttl) t = false := by
    simp [isExpired]; omega
  by_cases hsize : sizeOf v < 102400
  · simp [cacheGet, cacheSet, hsize, setKey, hfresh]
  · have hshadow' := hshadow (le_of_not_lt hsize)
    simp only [cacheGet, cacheSet, hsize, if_false, setKey, if_pos rfl, hfresh]
    cases hloc : s.localStore k with
    | none => simp [hloc, cacheGetFromIdb, setKey, hfresh]
    | some e => simp [hloc, hshadow' e hloc, cacheGetFromIdb, setKey, hfresh]

/-- **C6 (amended) witness.** -/
theorem cacheSet_get_within_ttl_witness :
    (cacheGet 10 "k"
        (cacheSet (fun n => n) 0 "k" 5 10 (emptyCache Nat))).1 = some 5 :=
  cacheSet_get_within_ttl (fun n => n) (emptyCache Nat) "k" 5 10 0 10
    (by decide) (fun h => absurd h (by decide))

/-- **C7.** `get(key)` strictly after `storedAt + ttl` returns absent, and
that access evicts the entry from both data tiers and from the metadata
index, so that a repeated `get` at any time also returns absent (no stale
hit); the eviction happens on the access itself (`invalidateKey` inside
`get` — there is no background sweep in the model, every state change is
an explicit operation). -/
theorem cacheGet_after_expiry (sizeOf : A → Nat) (s : CacheState A)
    (k : String) (v : A) (ttl t0 t t2 : Nat)
    (hpos : 0 < ttl) (helapsed : t0 + ttl < t) :
    (cacheGet t k (cacheSet sizeOf t0 k v ttl s)).1 = none ∧
    ((cacheGet t k (cacheSet sizeOf t0 k v ttl s)).2.localStore k = none ∧
      (cacheGet t k (cacheSet sizeOf t0 k v ttl s)).2.idb k = none ∧
      (cacheGet t k (cacheSet sizeOf t0 k v ttl s)).2.meta k = none) ∧
    (cacheGet t2 k (cacheGet t k (cacheSet sizeOf t0 k v ttl s)).2).1 = none := by
  have httl : actualTTLOf ttl = ttl := by
    simp [actualTTLOf]; omega
  have hexp : isExpired t0 (actualTTLOf ttl) t = true := by
    simp [isExpired, httl]; omega
  by_cases hsize : sizeOf v < 102400 <;>
    simp [cacheGet, cacheSet, hsize, setKey, hexp, invalidateKey]

/-- **C7 witness.** -/
theorem cacheGet_after_expiry_witness :
    (cacheGet 11 "k" (cacheSet (fun n => n) 0 "k" 7 10 (emptyCache Nat))).1 = none ∧
    ((cacheGet 11 "k" (cacheSet (fun n => n) 0 "k" 7 10 (emptyCache Nat))).2.localStore "k" = none ∧
      (cacheGet 11 "k" (cacheSet (fun n => n) 0 "k" 7 10 (emptyCache Nat))).2.idb "k" = none ∧
      (cacheGet 11 "k" (cacheSet (fun n => n) 0 "k" 7 10 (emptyCache Nat))).2.meta "k" = none) ∧
    (cacheGet 99 "k" (cacheGet 11 "k" (cacheSet (fun n => n) 0 "k" 7 10 (emptyCache Nat))).2).1 = none :=
  cacheGet_after_expiry (fun n => n) (emptyCache Nat) "k" 7 10 0 11 99
    (by decide) (by decide)

/-! ### Cache-read stability

Within one sequential request, a cache read that misses leaves the cache
either untouched or with the key evicted; in both cases an immediately
repeated read for the same key misses again.  These lemmas justify that a
403/429 response — which presupposes that the initial cache check missed —
always reaches its throw statements.
-/

theorem cacheGet_state_cases (now : Nat) (k : String) (s : CacheState A) :
    (cacheGet now k s).2 = s ∨ (cacheGet now k s).2 = invalidateKey k s := by
  unfold cacheGet cacheGetFromIdb
  cases hm : s.meta k with
  | none => right; rfl
  | some m =>
    by_cases he : isExpired m.timestamp m.ttl now
    · simp [he]
    · cases hl : s.localStore k with
      | none =>
        cases hi : s.idb k with
        | none => simp [he, hi]
        | some e2 =>
          by_cases h2 : isExpired e2.timestamp e2.ttl now <;> simp [he, hi, h2]
      | some e =>
        by_cases hee : isExpired e.timestamp e.ttl now
        · cases hi : s.idb k with
          | none => simp [he, hee, hi]
          | some e2 =>
            by_cases h2 : isExpired e2.timestamp e2.ttl now <;> simp [he, hee, hi, h2]
        · simp [he, hee]

theorem cacheGet_invalidated_none (now : Nat) (k : String) (s : CacheState A) :
    (cacheGet now k (invalidateKey k s)).1 = none := by
  simp [cacheGet, invalidateKey, setKey]

theorem cacheGet_none_again (now : Nat) (k : String) (s : CacheState A)
    (h : (cacheGet now k s).1 = none) :
    (cacheGet now k (cacheGet now k s).2).1 = none := by
  rcases cacheGet_state_cases now k s with hc | hc
  · rw [hc, h]
  · rw [hc]
    exact cacheGet_invalidated_none now k s

theorem clientCacheGet_rls (now : Nat) (k : String) (st : ClientState A) :
    (clientCacheGet now k st).2.rateLimitState = st.rateLimitState := by
  cases h : st.cache <;> simp [clientCacheGet, h]

theorem clientCacheGet_cache_eq (now : Nat) (k : String) (st st2 : ClientState A)
    (h : st2.cache = st.cache) :
    (clientCacheGet now k st2).1 = (clientCacheGet now k st).1 ∧
    (clientCacheGet now k st2).2.cache = (clientCacheGet now k st).2.cache := by
  cases hc : st.cache <;> simp [clientCacheGet, h, hc]

theorem clientCacheGet_none_again (now : Nat) (k : String) (st : ClientState A)
    (h : (clientCacheGet now k st).1 = none) :
    (clientCacheGet now k (clientCacheGet now k st).2).1 = none := by
  cases hc : st.cache with
  | none => simp [clientCacheGet, hc] at h ⊢
  | some cs =>
    simp [clientCacheGet, hc] at h ⊢
    exact cacheGet_none_again now k cs h

/-- **C1.** When the tracked `RateLimitState` has `remaining == 0`, a
request issues zero network calls; it returns the cached value when the
cache holds one for the computed key, and otherwise immediately raises
`RateLimitError` carrying the current `reset` epoch. -/
theorem makeRequest_rate_limited_preflight (sizeOf : A → Nat) (now : Nat)
    (key : String) (responses : Nat → FetchOutcome A) (st : ClientState A)
    (h0 : st.rateLimitState.remaining = 0) :
    (makeRequest sizeOf now key responses st).fetches = 0 ∧
    (∀ v, (clientCacheGet now key st).1 = some v →
      (makeRequest sizeOf now key responses st).result = .ok v) ∧
    ((clientCacheGet now key st).1 = none →
      (makeRequest sizeOf now key responses st).result =
        .err (.rateLimitErr st.rateLimitState.reset 403)) := by
  unfold makeRequest
  rw [if_pos h0]
  cases hc : (clientCacheGet now key st).1 <;> simp [hc]

/-- **C1 witness.** -/
theorem makeRequest_rate_limited_preflight_witness :
    ((⟨⟨60, 0, 999, 60⟩, none⟩ : ClientState Nat).rateLimitState.remaining = 0) ∧
    (makeRequest (fun _ => 0) 0 "k" (fun _ => .netFail)
        (⟨⟨60, 0, 999, 60⟩, none⟩ : ClientState Nat)).fetches = 0 ∧
    (makeRequest (fun _ => 0) 0 "k" (fun _ => .netFail)
        (⟨⟨60, 0, 999, 60⟩, none⟩ : ClientState Nat)).result =
      .err (.rateLimitErr 999 403) :=
  ⟨rfl,
    (makeRequest_rate_limited_preflight (fun _ => 0) 0 "k" (fun _ => .netFail)
      ⟨⟨60, 0, 999, 60⟩, none⟩ rfl).1,
    (makeRequest_rate_limited_preflight (fun _ => 0) 0 "k" (fun _ => .netFail)
      ⟨⟨60, 0, 999, 60⟩, none⟩ rfl).2.2 rfl⟩

theorem executeRequest_retry_after_secondary (sizeOf : A → Nat) (now : Nat)
    (key : String) (st : ClientState A) (r : HttpResponse A) (ra : Nat)
    (hmiss : (clientCacheGet now key st).1 = none)
    (hstatus : r.status = 403 ∨ r.status = 429)
    (hra : r.retryAfter = some ra) :
    (executeRequest sizeOf now key (.resp r) st).result =
      .err (.secondaryRateLimitErr ra r.status) := by
  have h304 : ¬ r.status = 304 := by rcases hstatus with h | h <;> omega
  have hcache1 :
      (clientCacheGet now key
        { (clientCacheGet now key st).2 with
          rateLimitState :=
            updateRateLimitFromHeaders (clientCacheGet now key st).2.rateLimitState
              r.quota }).1 = none := by
    have heq := clientCacheGet_cache_eq now key (clientCacheGet now key st).2
      { (clientCacheGet now key st).2 with
        rateLimitState :=
          updateRateLimitFromHeaders (clientCacheGet now key st).2.rateLimitState
            r.quota } rfl
    rw [heq.1]
    exact clientCacheGet_none_again now key st hmiss
  have hcache2 := clientCacheGet_none_again now key _ hcache1
  simp only [executeRequest, hmiss]
  rw [if_neg h304, if_pos hstatus]
  simp only [hcache1, hra, hcache2]

/-- **C3.** A response with status 403 or 429 that carries a retry-after
value always makes the request fail with `SecondaryRateLimitError` whose
`retryAfter` field equals exactly the parsed retry-after value, regardless
of which of the two status codes it was (a response exists at all only
when the admission check passed and the initial cache check missed; the
internal cache-fallback reads before and inside the catch block then
necessarily miss as well, and neither rate-limit error kind is retried by
the retry wrapper). -/
theorem makeRequest_retry_after_secondary (sizeOf : A → Nat) (now : Nat)
    (key : String) (responses : Nat → FetchOutcome A) (st : ClientState A)
    (r : HttpResponse A) (ra : Nat)
    (hrem : st.rateLimitState.remaining ≠ 0)
    (hmiss : (clientCacheGet now key st).1 = none)
    (hresp : responses 0 = .resp r)
    (hstatus : r.status = 403 ∨ r.status = 429)
    (hra : r.retryAfter = some ra) :
    (makeRequest sizeOf now key responses st).result =
      .err (.secondaryRateLimitErr ra r.status) := by
  unfold makeRequest
  rw [if_neg hrem]
  simp only [executeRequestWithRetry, hresp,
    executeRequest_retry_after_secondary sizeOf now key st r ra hmiss hstatus hra]

/-- **C3 witness.** -/
theorem makeRequest_retry_after_secondary_witness :
    (makeRequest (fun _ => 0) 0 "k"
        (fun _ => .resp ⟨403, some 30, ⟨none, none, none, none⟩, none, none, (0 : Nat)⟩)
        (⟨⟨60, 10, 50, 50⟩, none⟩ : ClientState Nat)).result =
      .err (.secondaryRateLimitErr 30 403) :=
  makeRequest_retry_after_secondary (fun _ => 0) 0 "k"
    (fun _ => .resp ⟨403, some 30, ⟨none, none, none, none⟩, none, none, 0⟩)
    ⟨⟨60, 10, 50, 50⟩, none⟩
    ⟨403, some 30, ⟨none, none, none, none⟩, none, none, 0⟩ 30
    (by decide) rfl rfl (Or.inl rfl) rfl

/-! ### Retry policy -/

theorem retry_stop_of_not_network (sizeOf : A → Nat) (now : Nat) (key : String)
    (responses : Nat → FetchOutcome A) (rc : Nat) (st : ClientState A)
    (h : ∀ sc, (executeRequest sizeOf now key (responses rc) st).result ≠
      .err (.networkErr sc)) :
    executeRequestWithRetry sizeOf now key responses rc st =
      ⟨(executeRequest sizeOf now key (responses rc) st).result,
        (executeRequest sizeOf now key (responses rc) st).state,
        if (executeRequest sizeOf now key (responses rc) st).fetched then 1 else 0,
        [],
        (executeRequest sizeOf now key (responses rc) st).processed.toList⟩ := by
  cases hres : (executeRequest sizeOf now key (responses rc) st).result with
  | ok v =>
    conv_lhs => rw [executeRequestWithRetry]
    simp [hres]
  | err e0 =>
    cases e0 with
    | rateLimitErr rt sc =>
      conv_lhs => rw [executeRequestWithRetry]
      simp [hres]
    | secondaryRateLimitErr ra sc =>
      conv_lhs => rw [executeRequestWithRetry]
      simp [hres]
    | networkErr sc => exact absurd hres (h sc)

theorem retry_stop_network (sizeOf : A → Nat) (now : Nat) (key : String)
    (responses : Nat → FetchOutcome A) (rc : Nat) (st : ClientState A) (sc : Option Nat)
    (hres : (executeRequest sizeOf now key (responses rc) st).result =
      .err (.networkErr sc))
    (hstop : ¬ (rc < maxRetries ∧ isRetryableError sc = true)) :
    executeRequestWithRetry sizeOf now key responses rc st =
      ⟨(executeRequest sizeOf now key (responses rc) st).result,
        (executeRequest sizeOf now key (responses rc) st).state,
        if (executeRequest sizeOf now key (responses rc) st).fetched then 1 else 0,
        [],
        (executeRequest sizeOf now key (responses rc) st).processed.toList⟩ := by
  conv_lhs => rw [executeRequestWithRetry]
  simp only [hres]
  rw [dif_neg hstop]

theorem retry_step_network (sizeOf : A → Nat) (now : Nat) (key : String)
    (responses : Nat → FetchOutcome A) (rc : Nat) (st : ClientState A) (sc : Option Nat)
    (hres : (executeRequest sizeOf now key (responses rc) st).result =
      .err (.networkErr sc))
    (hretry : rc < maxRetries ∧ isRetryableError sc = true) :
    executeRequestWithRetry sizeOf now key responses rc st =
      ⟨(executeRequestWithRetry sizeOf now key responses (rc + 1)
          (executeRequest sizeOf now key (responses rc) st).state).result,
        (executeRequestWithRetry sizeOf now key responses (rc + 1)
          (executeRequest sizeOf now key (responses rc) st).state).state,
        (if (executeRequest sizeOf now key (responses rc) st).fetched then 1 else 0) +
          (executeRequestWithRetry sizeOf now key responses (rc + 1)
            (executeRequest sizeOf now key (responses rc) st).state).fetches,
        retryDelay ::
          (executeRequestWithRetry sizeOf now key responses (rc + 1)
            (executeRequest sizeOf now key (responses rc) st).state).delays,
        (executeRequest sizeOf now key (responses rc) st).processed.toList ++
          (executeRequestWithRetry sizeOf now key responses (rc + 1)
            (executeRequest sizeOf now key (responses rc) st).state).processed⟩ := by
  conv_lhs => rw [executeRequestWithRetry]
  simp only [hres]
  rw [dif_pos hretry]

theorem executeRequestWithRetry_bounds (sizeOf : A → Nat) (now : Nat) (key : String)
    (responses : Nat → FetchOutcome A) :
    ∀ n rc st, maxRetries - rc ≤ n →
      (executeRequestWithRetry sizeOf now key responses rc st).delays.length ≤
        maxRetries - rc ∧
      (executeRequestWithRetry sizeOf now key responses rc st).fetches ≤
        maxRetries - rc + 1 ∧
      (executeRequestWithRetry sizeOf now key responses rc st).delays =
        List.replicate
          (executeRequestWithRetry sizeOf now key responses rc st).delays.length
          retryDelay := by
  intro n
  induction n with
  | zero =>
    intro rc st hle
    have hstop : ¬ rc < maxRetries := by omega
    cases hres : (executeRequest sizeOf now key (responses rc) st).result with
    | ok v =>
      rw [retry_stop_of_not_network sizeOf now key responses rc st (by simp [hres])]
      refine ⟨by simp, ?_, by simp⟩
      dsimp only
      split <;> omega
    | err e0 =>
      cases e0 with
      | rateLimitErr rt sc =>
        rw [retry_stop_of_not_network sizeOf now key responses rc st (by simp [hres])]
        refine ⟨by simp, ?_, by simp⟩
        dsimp only
        split <;> omega
      | secondaryRateLimitErr ra sc =>
        rw [retry_stop_of_not_network sizeOf now key responses rc st (by simp [hres])]
        refine ⟨by simp, ?_, by simp⟩
        dsimp only
        split <;> omega
      | networkErr sc =>
        rw [retry_stop_network sizeOf now key responses rc st sc hres
          (fun hc => hstop hc.1)]
        refine ⟨by simp, ?_, by simp⟩
        dsimp only
        split <;> omega
  | succ n ih =>
    intro rc st hle
    cases hres : (executeRequest sizeOf now key (responses rc) st).result with
    | ok v =>
      rw [retry_stop_of_not_network sizeOf now key responses rc st (by simp [hres])]
      refine ⟨by simp, ?_, by simp⟩
      dsimp only
      split <;> omega
    | err e0 =>
      cases e0 with
      | rateLimitErr rt sc =>
        rw [retry_stop_of_not_network sizeOf now key responses rc st (by simp [hres])]
        refine ⟨by simp, ?_, by simp⟩
        dsimp only
        split <;> omega
      | secondaryRateLimitErr ra sc =>
        rw [retry_stop_of_not_network sizeOf now key responses rc st (by simp [hres])]
        refine ⟨by simp, ?_, by simp⟩
        dsimp only
        split <;> omega
      | networkErr sc =>
        by_cases hretry : rc < maxRetries ∧ isRetryableError sc = true
        · rw [retry_step_network sizeOf now key responses rc st sc hres hretry]
          have hrec := ih (rc + 1)
            (executeRequest sizeOf now key (responses rc) st).state (by omega)
          have hlt := hretry.1
          refine ⟨?_, ?_, ?_⟩
          · have := hrec.1
            simp only [List.length_cons]
            omega
          · have := hrec.2.1
            dsimp only
            have hlt2 := hretry.1
            split <;> omega
          · simp only [List.length_cons, List.replicate_succ]
            exact congrArg (List.cons retryDelay) hrec.2.2
        · rw [retry_stop_network sizeOf now key responses rc st sc hres hretry]
          refine ⟨by simp, ?_, by simp⟩
          dsimp only
          split <;> omega

/-- **C2.** Retry policy of the client layer, for a full request starting
at retry count 0: (i) every inter-attempt delay is the fixed `retryDelay`,
there are at most `maxRetries = 2` of them, and at most `maxRetries + 1`
network calls are issued; (ii) a `SecondaryRateLimitError` outcome of the
first attempt is returned immediately — never retried, no delay; (iii) a
`RateLimitError` outcome likewise; (iv) a `NetworkError` whose status code
is not retryable (a present status outside {408} ∪ [500, ∞)) is returned
immediately with no delay; (v) a `NetworkError` with no status code
(transport failure) or with a retryable status is retried after exactly
the fixed delay. -/
theorem executeRequestWithRetry_policy (sizeOf : A → Nat) (now : Nat) (key : String)
    (responses : Nat → FetchOutcome A) (st : ClientState A) :
    ((executeRequestWithRetry sizeOf now key responses 0 st).delays =
        List.replicate
          (executeRequestWithRetry sizeOf now key responses 0 st).delays.length
          retryDelay ∧
      (executeRequestWithRetry sizeOf now key responses 0 st).delays.length ≤
        maxRetries ∧
      (executeRequestWithRetry sizeOf now key responses 0 st).fetches ≤
        maxRetries + 1) ∧
    (∀ ra sc, (executeRequest sizeOf now key (responses 0) st).result =
        .err (.secondaryRateLimitErr ra sc) →
      (executeRequestWithRetry sizeOf now key responses 0 st).result =
        .err (.secondaryRateLimitErr ra sc) ∧
      (executeRequestWithRetry sizeOf now key responses 0 st).delays = []) ∧
    (∀ rt sc, (executeRequest sizeOf now key (responses 0) st).result =
        .err (.rateLimitErr rt sc) →
      (executeRequestWithRetry sizeOf now key responses 0 st).result =
        .err (.rateLimitErr rt sc) ∧
      (executeRequestWithRetry sizeOf now key responses 0 st).delays = []) ∧
    (∀ sc, (executeRequest sizeOf now key (responses 0) st).result =
        .err (.networkErr sc) →
      isRetryableError sc = false →
      (executeRequestWithRetry sizeOf now key responses 0 st).result =
        .err (.networkErr sc) ∧
      (executeRequestWithRetry sizeOf now key responses 0 st).delays = []) ∧
    (∀ sc, (executeRequest sizeOf now key (responses 0) st).result =
        .err (.networkErr sc) →
      isRetryableError sc = true →
      (executeRequestWithRetry sizeOf now key responses 0 st).delays.head? =
        some retryDelay) := by
  refine ⟨?_, ?_, ?_, ?_, ?_⟩
  · have hb := executeRequestWithRetry_bounds sizeOf now key responses maxRetries 0 st
      (by omega)
    exact ⟨hb.2.2, by simpa using hb.1, by simpa using hb.2.1⟩
  · intro ra sc h
    rw [retry_stop_of_not_network sizeOf now key responses 0 st (by simp [h])]
    exact ⟨h, rfl⟩
  · intro rt sc h
    rw [retry_stop_of_not_network sizeOf now key responses 0 st (by simp [h])]
    exact ⟨h, rfl⟩
  · intro sc h hret
    rw [retry_stop_network sizeOf now key responses 0 st sc h (by simp [hret])]
    exact ⟨h, rfl⟩
  · intro sc h hret
    rw [retry_step_network sizeOf now key responses 0 st sc h
      ⟨by simp [maxRetries], hret⟩]
    rfl

/-- **C2 witness.** -/
theorem executeRequestWithRetry_policy_witness :
    (executeRequestWithRetry (fun _ => 0) 0 "k"
        (fun _ => .resp ⟨403, some 45, ⟨none, none, none, none⟩, none, none, (0 : Nat)⟩)
        0 (⟨⟨60, 10, 50, 50⟩, none⟩ : ClientState Nat)).result =
      .err (.secondaryRateLimitErr 45 403) ∧
    (executeRequestWithRetry (fun _ => 0) 0 "k"
        (fun _ => .resp ⟨403, some 45, ⟨none, none, none, none⟩, none, none, (0 : Nat)⟩)
        0 (⟨⟨60, 10, 50, 50⟩, none⟩ : ClientState Nat)).delays = [] :=
  (executeRequestWithRetry_policy (fun _ => 0) 0 "k"
      (fun _ => .resp ⟨403, some 45, ⟨none, none, none, none⟩, none, none, (0 : Nat)⟩)
      ⟨⟨60, 10, 50, 50⟩, none⟩).2.1 45 403 (by decide)

/-! ### Quota-state discipline -/

theorem clientCacheSet_rls (sizeOf : A → Nat) (now : Nat) (k : String) (v : A)
    (ttl : Nat) (st : ClientState A) :
    (clientCacheSet sizeOf now k v ttl st).rateLimitState = st.rateLimitState := by
  cases h : st.cache <;> simp [clientCacheSet, h]

theorem clientUpdateCacheHeaders_rls (k : String) (etag lastModified : Option String)
    (st : ClientState A) :
    (clientUpdateCacheHeaders k etag lastModified st).rateLimitState =
      st.rateLimitState := by
  cases h : st.cache <;> simp [clientUpdateCacheHeaders, h]

/-- The quota snapshot after one `executeRequest` equals the parse of the
processed response when all four quota headers were present, and is
otherwise unchanged — header parsing is the only write to the snapshot. -/
theorem executeRequest_rls (sizeOf : A → Nat) (now : Nat) (key : String)
    (o : FetchOutcome A) (st : ClientState A) :
    (executeRequest sizeOf now key o st).state.rateLimitState =
      (match (executeRequest sizeOf now key o st).processed with
        | some r => updateRateLimitFromHeaders st.rateLimitState r.quota
        | none => st.rateLimitState) := by
  simp only [executeRequest]
  cases hc0 : (clientCacheGet now key st).1 with
  | some v => simp [clientCacheGet_rls]
  | none =>
    cases o with
    | netFail => simp [clientCacheGet_rls]
    | resp r =>
      repeat' split
      all_goals
        simp_all [clientCacheGet_rls, clientCacheSet_rls, clientUpdateCacheHeaders_rls]

/-- A `RateLimitError` thrown by `executeRequest` carries exactly the
`reset` of the quota snapshot current at the throw, which is also the
snapshot in the state afterwards. -/
theorem executeRequest_rateLimitErr_reset (sizeOf : A → Nat) (now : Nat)
    (key : String) (o : FetchOutcome A) (st : ClientState A) (rt sc : Nat)
    (h : (executeRequest sizeOf now key o st).result = .err (.rateLimitErr rt sc)) :
    rt = (executeRequest sizeOf now key o st).state.rateLimitState.reset := by
  revert h
  simp only [executeRequest]
  cases hc0 : (clientCacheGet now key st).1 with
  | some v => intro h; cases h
  | none =>
    cases o with
    | netFail => intro h; cases h
    | resp r =>
      repeat' split
      all_goals
        intro h
      all_goals
        simp_all [clientCacheGet_rls, clientCacheSet_rls, clientUpdateCacheHeaders_rls]

theorem getLast?_append_getD (l1 l2 : List X) (d : X) :
    (l1 ++ l2).getLast?.getD d = l2.getLast?.getD (l1.getLast?.getD d) := by
  cases l2 with
  | nil => simp
  | cons x xs =>
    rw [List.getLast?_append_cons,
      List.getLast?_eq_getLast_of_ne_nil (List.cons_ne_nil x xs)]
    simp

theorem lastQuota_append (a b : List (HttpResponse A)) (d : RateLimit) :
    (lastQuota (a ++ b)).getD d = (lastQuota b).getD ((lastQuota a).getD d) := by
  unfold lastQuota
  rw [List.filterMap_append]
  exact getLast?_append_getD _ _ d

theorem executeRequest_state_lastQuota (sizeOf : A → Nat) (now : Nat)
    (key : String) (o : FetchOutcome A) (st : ClientState A) :
    (executeRequest sizeOf now key o st).state.rateLimitState =
      (lastQuota (executeRequest sizeOf now key o st).processed.toList).getD
        st.rateLimitState := by
  rw [executeRequest_rls]
  cases hp : (executeRequest sizeOf now key o st).processed with
  | none => simp [lastQuota]
  | some r =>
    cases hq : quotaOf r.quota with
    | none => simp [lastQuota, updateRateLimitFromHeaders, hq]
    | some q => simp [lastQuota, updateRateLimitFromHeaders, hq]

theorem executeRequestWithRetry_rls (sizeOf : A → Nat) (now : Nat) (key : String)
    (responses : Nat → FetchOutcome A) :
    ∀ n rc st, maxRetries - rc ≤ n →
      (executeRequestWithRetry sizeOf now key responses rc st).state.rateLimitState =
        (lastQuota
          (executeRequestWithRetry sizeOf now key responses rc st).processed).getD
          st.rateLimitState ∧
      (∀ rt sc,
        (executeRequestWithRetry sizeOf now key responses rc st).result =
          .err (.rateLimitErr rt sc) →
        rt =
          ((executeRequestWithRetry sizeOf now
            key responses rc st).state).rateLimitState.reset) := by
  intro n
  induction n with
  | zero =>
    intro rc st hle
    have hstop : ¬ rc < maxRetries := by omega
    cases hres : (executeRequest sizeOf now key (responses rc) st).result with
    | ok v =>
      rw [retry_stop_of_not_network sizeOf now key responses rc st (by simp [hres])]
      exact ⟨executeRequest_state_lastQuota sizeOf now key (responses rc) st,
        fun rt sc h => by rw [hres] at h; cases h⟩
    | err e0 =>
      cases e0 with
      | rateLimitErr rt0 sc0 =>
        rw [retry_stop_of_not_network sizeOf now key responses rc st (by simp [hres])]
        refine ⟨executeRequest_state_lastQuota sizeOf now key (responses rc) st, ?_⟩
        intro rt sc h
        rw [hres] at h
        cases h
        exact executeRequest_rateLimitErr_reset sizeOf now key (responses rc) st rt0 sc0 hres
      | secondaryRateLimitErr ra sc0 =>
        rw [retry_stop_of_not_network sizeOf now key responses rc st (by simp [hres])]
        exact ⟨executeRequest_state_lastQuota sizeOf now key (responses rc) st,
          fun rt sc h => by rw [hres] at h; cases h⟩
      | networkErr sc0 =>
        rw [retry_stop_network sizeOf now key responses rc st sc0 hres
          (fun hc => hstop hc.1)]
        exact ⟨executeRequest_state_lastQuota sizeOf now key (responses rc) st,
          fun rt sc h => by rw [hres] at h; cases h⟩
  | succ n ih =>
    intro rc st hle
    cases hres : (executeRequest sizeOf now key (responses rc) st).result with
    | ok v =>
      rw [retry_stop_of_not_network sizeOf now key responses rc st (by simp [hres])]
      exact ⟨executeRequest_state_lastQuota sizeOf now key (responses rc) st,
        fun rt sc h => by rw [hres] at h; cases h⟩
    | err e0 =>
      cases e0 with
      | rateLimitErr rt0 sc0 =>
        rw [retry_stop_of_not_network sizeOf now key responses rc st (by simp [hres])]
        refine ⟨executeRequest_state_lastQuota sizeOf now key (responses rc) st, ?_⟩
        intro rt sc h
        rw [hres] at h
        cases h
        exact executeRequest_rateLimitErr_reset sizeOf now key (responses rc) st rt0 sc0 hres
      | secondaryRateLimitErr ra sc0 =>
        rw [retry_stop_of_not_network sizeOf now key responses rc st (by simp [hres])]
        exact ⟨executeRequest_state_lastQuota sizeOf now key (responses rc) st,
          fun rt sc h => by rw [hres] at h; cases h⟩
      | networkErr sc0 =>
        by_cases hretry : rc < maxRetries ∧ isRetryableError sc0 = true
        · rw [retry_step_network sizeOf now key responses rc st sc0 hres hretry]
          have hrec := ih (rc + 1)
            (executeRequest sizeOf now key (responses rc) st).state (by omega)
          refine ⟨?_, ?_⟩
          · dsimp only
            rw [hrec.1, lastQuota_append,
              executeRequest_state_lastQuota sizeOf now key (responses rc) st]
          · intro rt sc h
            dsimp only at h ⊢
            exact hrec.2 rt sc h
        · rw [retry_stop_network sizeOf now key responses rc st sc0 hres hretry]
          exact ⟨executeRequest_state_lastQuota sizeOf now key (responses rc) st,
            fun rt sc h => by rw [hres] at h; cases h⟩

/-- **C4.** For every request: the quota snapshot afterwards equals the
parse of the most recent response processed during the request that
carried all four quota headers, and is the untouched prior snapshot when
no processed response did — refreshing from response quota headers is the
only mechanism that updates quota state (cache reads and writes never
touch it, and the pre-flight branch leaves it unchanged); and every
`RateLimitError` raised reports exactly the `reset` of the resulting
snapshot, never an independently computed value. -/
theorem makeRequest_reset_from_headers (sizeOf : A → Nat) (now : Nat)
    (key : String) (responses : Nat → FetchOutcome A) (st : ClientState A) :
    (makeRequest sizeOf now key responses st).state.rateLimitState =
      (lastQuota (makeRequest sizeOf now key responses st).processed).getD
        st.rateLimitState ∧
    (∀ rt sc,
      (makeRequest sizeOf now key responses st).result = .err (.rateLimitErr rt sc) →
      rt = (makeRequest sizeOf now key responses st).state.rateLimitState.reset) := by
  unfold makeRequest
  by_cases h0 : st.rateLimitState.remaining = 0
  · rw [if_pos h0]
    cases hc : (clientCacheGet now key st).1 with
    | some v =>
      simp [hc, lastQuota, clientCacheGet_rls]
    | none =>
      simp only [hc]
      refine ⟨by simp [lastQuota, clientCacheGet_rls], ?_⟩
      intro rt sc h
      simp only [ReqResult.err.injEq, ApiError.rateLimitErr.injEq] at h
      rw [← h.1]
      simp [clientCacheGet_rls]
  · rw [if_neg h0]
    exact executeRequestWithRetry_rls sizeOf now key responses maxRetries 0 st (by omega)

/-- **C4 witness.** -/
theorem makeRequest_reset_from_headers_witness :
    777 =
      (makeRequest (fun _ => 0) 0 "k" (fun _ => .resp respC4)
        stC4).state.rateLimitState.reset := by
  have hres : (executeRequest (fun _ => 0) 0 "k"
      ((fun _ => FetchOutcome.resp respC4) 0) stC4).result =
      .err (.rateLimitErr 777 403) := by decide
  have hmr : (makeRequest (fun _ => 0) 0 "k" (fun _ => .resp respC4) stC4).result =
      .err (.rateLimitErr 777 403) := by
    unfold makeRequest
    rw [if_neg (by decide)]
    rw [retry_stop_of_not_network (fun _ => 0) 0 "k"
      (fun _ => FetchOutcome.resp respC4) 0 stC4 (by simp [hres])]
    exact hres
  exact (makeRequest_reset_from_headers (fun _ => 0) 0 "k"
      (fun _ => .resp respC4) stC4).2 777 403 hmr

/-! ## RandomEngine: repository-selection cascade

Embedding of `RandomEngine.getRandomRepository` /
`searchRandomRepository` (src/services/RandomEngine.ts).  The outcome of
`apiClient.searchRepositories` is an oracle `searchOutcome` (`none` = the
call threw); the random index into the result page is an arbitrary
in-range index `pick % length`; each `getRandomUserRepository` call is an
oracle `fallback : Nat → Option R` indexed by the attempt number (`none`
= that attempt threw).
-/

theorem fallbackLoop_stop (fallback : Nat → Option R) (attempts : Nat)
    (h : ¬ attempts < maxAttempts) :
    fallbackLoop fallback attempts = ⟨none, 0, []⟩ := by
  rw [fallbackLoop, dif_neg h]

theorem fallbackLoop_success (fallback : Nat → Option R) (attempts : Nat)
    (repo : R) (h : attempts < maxAttempts)
    (hs : fallback (attempts + 1) = some repo) :
    fallbackLoop fallback attempts = ⟨some repo, 1, []⟩ := by
  rw [fallbackLoop, dif_pos h, hs]

theorem fallbackLoop_fail (fallback : Nat → Option R) (attempts : Nat)
    (h : attempts < maxAttempts) (hf : fallback (attempts + 1) = none) :
    fallbackLoop fallback attempts =
      ⟨(fallbackLoop fallback (attempts + 1)).result,
        (fallbackLoop fallback (attempts + 1)).fallbackCalls + 1,
        (if attempts + 1 < maxAttempts then [1000] else []) ++
          (fallbackLoop fallback (attempts + 1)).delays⟩ := by
  conv_lhs => rw [fallbackLoop]
  rw [dif_pos h, hf]

theorem fallbackLoop_all_fail (fallback : Nat → Option R) :
    ∀ n attempts, maxAttempts - attempts ≤ n →
      (∀ i, attempts < i → i ≤ maxAttempts → fallback i = none) →
      fallbackLoop fallback attempts =
        ⟨none, maxAttempts - attempts,
          List.replicate (maxAttempts - 1 - attempts) 1000⟩ := by
  intro n
  induction n with
  | zero =>
    intro attempts hle _
    have hstop : ¬ attempts < maxAttempts := by omega
    rw [fallbackLoop_stop fallback attempts hstop]
    have h1 : maxAttempts - attempts = 0 := by omega
    have h2 : maxAttempts - 1 - attempts = 0 := by omega
    rw [h1, h2]
    rfl
  | succ n ih =>
    intro attempts hle hfail
    by_cases h : attempts < maxAttempts
    · rw [fallbackLoop_fail fallback attempts h
        (hfail (attempts + 1) (by omega) (by omega))]
      rw [ih (attempts + 1) (by omega)
        (fun i h1 h2 => hfail i (by omega) h2)]
      have hcalls : maxAttempts - (attempts + 1) + 1 = maxAttempts - attempts := by
        omega
      by_cases h2 : attempts + 1 < maxAttempts
      · have hdel : maxAttempts - 1 - attempts = (maxAttempts - 1 - (attempts + 1)) + 1 := by
          omega
        simp only [if_pos h2, hcalls, hdel, List.replicate_succ]
        rfl
      · have ha : maxAttempts - 1 - attempts = 0 := by omega
        have hb : maxAttempts - 1 - (attempts + 1) = 0 := by omega
        simp only [if_neg h2, hcalls, ha, hb]
        rfl
    · rw [fallbackLoop_stop fallback attempts h]
      have h1 : maxAttempts - attempts = 0 := by omega
      have h2 : maxAttempts - 1 - attempts = 0 := by omega
      rw [h1, h2]
      rfl

theorem fallbackLoop_none_imp (fallback : Nat → Option R) :
    ∀ n attempts, maxAttempts - attempts ≤ n →
      (fallbackLoop fallback attempts).result = none →
      ∀ i, attempts < i → i ≤ maxAttempts → fallback i = none := by
  intro n
  induction n with
  | zero =>
    intro attempts hle _ i h1 h2
    omega
  | succ n ih =>
    intro attempts hle hres i h1 h2
    by_cases h : attempts < maxAttempts
    · cases hf : fallback (attempts + 1) with
      | some repo =>
        rw [fallbackLoop_success fallback attempts repo h hf] at hres
        cases hres
      | none =>
        rw [fallbackLoop_fail fallback attempts h hf] at hres
        rcases Nat.lt_or_ge (attempts + 1) i with hi | hi
        · exact ih (attempts + 1) (by omega) hres i hi h2
        · have : i = attempts + 1 := by omega
          rw [this]
          exact hf
    · omega

theorem fallbackLoop_calls_le (fallback : Nat → Option R) :
    ∀ n attempts, maxAttempts - attempts ≤ n →
      (fallbackLoop fallback attempts).fallbackCalls ≤ maxAttempts - attempts := by
  intro n
  induction n with
  | zero =>
    intro attempts hle
    have hstop : ¬ attempts < maxAttempts := by omega
    rw [fallbackLoop_stop fallback attempts hstop]
    simp
  | succ n ih =>
    intro attempts hle
    by_cases h : attempts < maxAttempts
    · cases hf : fallback (attempts + 1) with
      | some repo =>
        rw [fallbackLoop_success fallback attempts repo h hf]
        simp
        omega
      | none =>
        rw [fallbackLoop_fail fallback attempts h hf]
        have := ih (attempts + 1) (by omega)
        dsimp only
        omega
    · rw [fallbackLoop_stop fallback attempts h]
      simp

/-- **C9.** Repository-selection cascade: an empty primary search result
counts as a primary failure; whenever the primary strategy fails,
selection falls through to the user-anchored fallback loop; at most 5
fallback attempts are made; total failure (the final throw) occurs only
when the primary failed and all 5 fallback attempts failed; and in that
case exactly 5 attempts were made with the fixed 1000 ms delay between
consecutive attempts (4 sleeps). -/
theorem getRandomRepository_fallback_spec (searchOutcome : Option (List R))
    (pick : Nat) (fallback : Nat → Option R) :
    (searchOutcome = some [] → searchRandomRepository searchOutcome pick = none) ∧
    (searchRandomRepository searchOutcome pick = none →
      getRandomRepository searchOutcome pick fallback = fallbackLoop fallback 0) ∧
    (getRandomRepository searchOutcome pick fallback).fallbackCalls ≤ maxAttempts ∧
    ((getRandomRepository searchOutcome pick fallback).result = none →
      searchRandomRepository searchOutcome pick = none ∧
      ∀ i, 1 ≤ i → i ≤ maxAttempts → fallback i = none) ∧
    (searchRandomRepository searchOutcome pick = none →
      (∀ i, 1 ≤ i → i ≤ maxAttempts → fallback i = none) →
      getRandomRepository searchOutcome pick fallback =
        ⟨none, maxAttempts, List.replicate 4 1000⟩) := by
  refine ⟨?_, ?_, ?_, ?_, ?_⟩
  · intro hempty
    rw [hempty]
    simp [searchRandomRepository]
  · intro hnone
    unfold getRandomRepository
    rw [hnone]
  · unfold getRandomRepository
    cases hs : searchRandomRepository searchOutcome pick with
    | some repo => simp
    | none =>
      simpa using fallbackLoop_calls_le fallback maxAttempts 0 (by omega)
  · intro hres
    unfold getRandomRepository at hres
    cases hs : searchRandomRepository searchOutcome pick with
    | some repo =>
      rw [hs] at hres
      cases hres
    | none =>
      rw [hs] at hres
      exact ⟨rfl, fun i h1 h2 =>
        fallbackLoop_none_imp fallback maxAttempts 0 (by omega) hres i h1 h2⟩
  · intro hnone hall
    unfold getRandomRepository
    rw [hnone]
    have := fallbackLoop_all_fail fallback maxAttempts 0 (by omega)
      (fun i h1 h2 => hall i h1 h2)
    simpa using this

/-- **C9 witness.** -/
theorem getRandomRepository_fallback_spec_witness :
    getRandomRepository (some ([] : List Nat)) 0 (fun _ => none) =
      ⟨none, maxAttempts, List.replicate 4 1000⟩ :=
  (getRandomRepository_fallback_spec (some ([] : List Nat)) 0 (fun _ => none)).2.2.2.2
    (by decide) (fun i h1 h2 => rfl)

/-! ## getCurrentRateLimit: defensive copy

Embedding of `GitHubApiClient.getCurrentRateLimit`
(`return { ...this.rateLimitState }`).  To state the aliasing property, the
quota objects live in an explicit object heap: the client instance owns the
object at `stRef`; the spread syntax allocates a fresh object whose four
numeric fields are copied from it.
-/

/-- **C10.** `getCurrentRateLimit` returns a copy: the returned object
equals the internal rate-limit state at the time of the call; it is a
distinct object; the call leaves the internal state unchanged; mutating
the returned object (any overwrite `v`) leaves the internal state — hence
the `remaining` consulted by the pre-flight admission check — unchanged;
and a subsequent `getCurrentRateLimit` still returns the original internal
state. -/
theorem getCurrentRateLimit_copy (stRef : Nat) (h : RLHeap) (v : RateLimit)
    (hvalid : stRef < h.nextRef) :
    readRef (getCurrentRateLimit stRef h).2 (getCurrentRateLimit stRef h).1 =
      readRef h stRef ∧
    (getCurrentRateLimit stRef h).1 ≠ stRef ∧
    readRef (getCurrentRateLimit stRef h).2 stRef = readRef h stRef ∧
    readRef
      (writeRef (getCurrentRateLimit stRef h).2 (getCurrentRateLimit stRef h).1 v)
      stRef = readRef h stRef ∧
    (readRef
        (writeRef (getCurrentRateLimit stRef h).2 (getCurrentRateLimit stRef h).1 v)
        stRef).remaining = (readRef h stRef).remaining ∧
    readRef
      (getCurrentRateLimit stRef
        (writeRef (getCurrentRateLimit stRef h).2 (getCurrentRateLimit stRef h).1 v)).2
      (getCurrentRateLimit stRef
        (writeRef (getCurrentRateLimit stRef h).2 (getCurrentRateLimit stRef h).1 v)).1 =
      readRef h stRef := by
  have h1 : ¬ stRef = h.nextRef := by omega
  have h2 : ¬ stRef = h.nextRef + 1 := by omega
  refine ⟨?_, ?_, ?_, ?_, ?_, ?_⟩ <;>
    simp [getCurrentRateLimit, readRef, writeRef, h1, h2]
  omega

/-- **C10 witness.** -/
theorem getCurrentRateLimit_copy_witness :
    (0 : Nat) < heapC10.nextRef ∧
    (readRef (getCurrentRateLimit 0 heapC10).2 (getCurrentRateLimit 0 heapC10).1 =
        readRef heapC10 0 ∧
      (getCurrentRateLimit 0 heapC10).1 ≠ 0 ∧
      readRef (getCurrentRateLimit 0 heapC10).2 0 = readRef heapC10 0 ∧
      readRef
        (writeRef (getCurrentRateLimit 0 heapC10).2 (getCurrentRateLimit 0 heapC10).1
          ⟨0, 0, 0, 0⟩) 0 = readRef heapC10 0 ∧
      (readRef
          (writeRef (getCurrentRateLimit 0 heapC10).2 (getCurrentRateLimit 0 heapC10).1
            ⟨0, 0, 0, 0⟩) 0).remaining = (readRef heapC10 0).remaining ∧
      readRef
        (getCurrentRateLimit 0
          (writeRef (getCurrentRateLimit 0 heapC10).2 (getCurrentRateLimit 0 heapC10).1
            ⟨0, 0, 0, 0⟩)).2
        (getCurrentRateLimit 0
          (writeRef (getCurrentRateLimit 0 heapC10).2 (getCurrentRateLimit 0 heapC10).1
            ⟨0, 0, 0, 0⟩)).1 =
        readRef heapC10 0) :=
  ⟨by decide, getCurrentRateLimit_copy 0 heapC10 ⟨0, 0, 0, 0⟩ (by decide)⟩
